import Mathlib

/-!
Shallow embedding of the HP-model conformation generator of the thesis
repository (notebooks "Protein folding algorithm Experiment 1/2" and the
embedded heuristic-recursive variant).  Python strings 'H'/'P' become the
inductive type `Acid`, grid cells become an association list from lattice
positions to cell values, and the NumPy random draws (shuffles / choices)
become an explicit stream `ρ : Nat → Nat` of indices: choosing
`valid[ρ k % valid.length]` ranges over exactly the outcomes a shuffle can
produce.
-/

namespace HPFold

/-- Amino-acid symbol: hydrophobic or polar (source strings 'H' / 'P'). -/
inductive Acid
  | H
  | P
deriving DecidableEq, Fintype

/-- A grid cell value: an amino acid, or the fence marker 'F' used by the
backtracking engine.  An empty cell ('' in the source) is the absence of an
entry in the association list. -/
inductive GridVal
  | acid (a : Acid)
  | fence
deriving DecidableEq, Fintype

/-- Lattice position `(row, col)`; integers so that the source's `row - 1`
neighbor arithmetic at the boundary is represented exactly. -/
abbrev Pos : Type := Int × Int

/-- Sparse occupancy surface: association list of occupied cells. -/
abbrev Grid : Type := List (Pos × GridVal)

/-- The Placement Order: ordered list of `(residue, position)` pairs (the
source's `amino_acid_order`). -/
abbrev PlacementOrder : Type := List (Acid × Pos)

/-- Cell content at a position (`grid[row, col]`); `none` is the empty cell. -/
def cellAt : Grid → Pos → Option GridVal
  | [], _ => none
  | e :: t, p => if e.1 = p then some e.2 else cellAt t p

/-- Clearing a cell (`grid[row, col] = ''`). -/
def clearCell (g : Grid) (p : Pos) : Grid :=
  g.filter (fun e => decide (e.1 ≠ p))

/-- `0 <= row < grid_size and 0 <= col < grid_size`. -/
def inBoundsB (gs : Nat) (p : Pos) : Bool :=
  decide (0 ≤ p.1) && decide (p.1 < (gs : Int)) &&
    decide (0 ≤ p.2) && decide (p.2 < (gs : Int))

/-- The four lattice neighbors of a cell, in the source's enumeration order
(up, down, left, right). -/
def neighbors (p : Pos) : List Pos :=
  [(p.1 - 1, p.2), (p.1 + 1, p.2), (p.1, p.2 - 1), (p.1, p.2 + 1)]

/-- In-bounds empty neighbors of a cell, in enumeration order
(`valid_neighbors` of the source). -/
def validNeighbors (gs : Nat) (g : Grid) (p : Pos) : List Pos :=
  (neighbors p).filter (fun q => inBoundsB gs q && (cellAt g q).isNone)

/-- The element a shuffle-then-take-first (`np.random.shuffle; l[0]`) can
select: the stream value `ρ k` reduced modulo the list length picks an
arbitrary element. -/
def chooseIdx (ρ : Nat → Nat) (k : Nat) (l : List Pos) (h : l ≠ []) : Pos :=
  l.get ⟨ρ k % l.length, Nat.mod_lt _ (List.length_pos.mpr h)⟩

/-- Manhattan distance between two lattice positions. -/
def mdist (p q : Pos) : Nat :=
  (p.1 - q.1).natAbs + (p.2 - q.2).natAbs

/-- Lattice adjacency (Manhattan distance 1, 4-connectivity). -/
def adjacent (p q : Pos) : Prop := mdist p q = 1

instance (p q : Pos) : Decidable (adjacent p q) := by
  unfold adjacent; infer_instance

/-! ### Experiment 1 — Stochastic Placement Engine (`initialize_grid`) -/

/-- The `while total_amino_acids > 0` loop of `initialize_grid`: place each
remaining residue on a uniformly chosen empty neighbor of the last placement,
stopping at the first dead end.  The accumulator `ord` holds the placements
most-recent-first (`amino_acid_order[-1]` = head); the wrapper reverses it. -/
def placeChain (gs : Nat) (ρ : Nat → Nat) :
    List Acid → Nat → Grid → PlacementOrder → Grid × PlacementOrder
  | [], _, g, ord => (g, ord)
  | a :: rest, k, g, ord =>
    match ord with
    | [] => (g, ord)
    | (b, lp) :: ot =>
      if h : validNeighbors gs g lp = [] then (g, (b, lp) :: ot)
      else
        let chosen := chooseIdx ρ k (validNeighbors gs g lp) h
        placeChain gs ρ rest (k + 1)
          ((chosen, GridVal.acid a) :: g) ((a, chosen) :: ((b, lp) :: ot))

/-- Experiment 1 `initialize_grid`: grid of size `2 * len`, first residue at
the center `(grid_size // 2, grid_size // 2)`, then the stochastic walk.
(The source would fail popping from an empty chain; the empty chain returns
the empty conformation here and is outside every claim's scope.) -/
def initialize_grid (acids : List Acid) (ρ : Nat → Nat) :
    Grid × PlacementOrder :=
  match acids with
  | [] => ([], [])
  | a :: rest =>
    let gs := 2 * (rest.length + 1)
    let center : Pos := (((gs / 2 : Nat) : Int), ((gs / 2 : Nat) : Int))
    let st := placeChain gs ρ rest 0
      [(center, GridVal.acid a)] [(a, center)]
    (st.1, st.2.reverse)

/-! ### Experiment 2 — Deterministic-Directional Placement Engine -/

/-- Chain-relative direction symbols ('Start', 'left', 'straight', 'right'). -/
inductive Dir
  | start
  | left
  | straight
  | right
deriving DecidableEq, Fintype

/-- Absolute heading of the most recent move ('up', 'down', 'left', 'right'). -/
inductive Orientation
  | up
  | down
  | left
  | right
deriving DecidableEq, Fintype

/-- The `movement_vectors` dictionary of the source. -/
def movement_vectors : Orientation → Pos
  | .up => (-1, 0)
  | .down => (1, 0)
  | .left => (0, -1)
  | .right => (0, 1)

/-- `get_new_orientation` of `initialize_grid_directional`, including its
catch-all: any turn other than 'left' takes the else branch. -/
def get_new_orientation (o : Orientation) (turn : Dir) : Orientation :=
  match o with
  | .up => if turn = Dir.left then .left else .right
  | .down => if turn = Dir.left then .right else .left
  | .left => if turn = Dir.left then .down else .up
  | .right => if turn = Dir.left then .up else .down

/-- The `for direction in directions` loop of `initialize_grid_directional`,
with the accumulator most-recent-first (reversed by the wrapper).  A 'Start'
direction places at the current cell; otherwise the orientation is updated
(skipped for 'straight'), the move attempted, and the walk breaks on an
occupied or out-of-bounds target.  (Pops from an exhausted chain, impossible
for the generated direction lists, return the partial state here.) -/
def dirWalk (gs : Nat) :
    List Dir → List Acid → Pos → Orientation → Grid → PlacementOrder →
      Grid × PlacementOrder
  | [], _, _, _, g, ord => (g, ord)
  | d :: ds, acids, cur, o, g, ord =>
    if d = Dir.start then
      match acids with
      | [] => (g, ord)
      | a :: rest =>
        if rest = [] then ((cur, GridVal.acid a) :: g, (a, cur) :: ord)
        else dirWalk gs ds rest cur o
          ((cur, GridVal.acid a) :: g) ((a, cur) :: ord)
    else
      let o1 := if d = Dir.straight then o else get_new_orientation o d
      let nxt : Pos :=
        (cur.1 + (movement_vectors o1).1, cur.2 + (movement_vectors o1).2)
      if inBoundsB gs nxt && (cellAt g nxt).isNone then
        match acids with
        | [] => (g, ord)
        | a :: rest =>
          if rest = [] then ((nxt, GridVal.acid a) :: g, (a, nxt) :: ord)
          else dirWalk gs ds rest nxt o1
            ((nxt, GridVal.acid a) :: g) ((a, nxt) :: ord)
      else (g, ord)

/-- Experiment 2 `initialize_grid_directional`: grid of size `2 * len`,
start at the center with initial orientation 'right', then walk the
pre-generated turn sequence rigidly. -/
def initialize_grid_directional (acids : List Acid) (dirs : List Dir) :
    Grid × PlacementOrder :=
  let gs := 2 * acids.length
  let center : Pos := (((gs / 2 : Nat) : Int), ((gs / 2 : Nat) : Int))
  let st := dirWalk gs dirs acids center Orientation.right [] []
  (st.1, st.2.reverse)

/-! ### Direction classification (`determine_directions`) -/

/-- Componentwise position difference (the source's move-vector subtraction). -/
def psub (p q : Pos) : Pos := (p.1 - q.1, p.2 - q.2)

/-- The body of `determine_directions` for `i >= 2`: classify a move vector
relative to the previous move vector as left / straight / right. -/
def classifyMove (prevMove mv : Pos) : Dir :=
  if prevMove = movement_vectors .up ∨ prevMove = movement_vectors .down then
    if mv = movement_vectors .left then
      (if prevMove = movement_vectors .up then Dir.left else Dir.right)
    else if mv = movement_vectors .right then
      (if prevMove = movement_vectors .up then Dir.right else Dir.left)
    else Dir.straight
  else
    if mv = movement_vectors .up then
      (if prevMove = movement_vectors .right then Dir.left else Dir.right)
    else if mv = movement_vectors .down then
      (if prevMove = movement_vectors .right then Dir.right else Dir.left)
    else Dir.straight

/-- The `i >= 2` tail of the `determine_directions` loop, carrying the last
two positions. -/
def classifySteps : Pos → Pos → PlacementOrder → List Dir
  | _, _, [] => []
  | pp, p, x :: t => classifyMove (psub p pp) (psub x.2 p) :: classifySteps p x.2 t

/-- `determine_directions`: 'Start' for the first placement, 'straight' for
the second, then chain-relative classification of each further move.
(As in the source, an empty order still yields `['Start']`.) -/
def determine_directions : PlacementOrder → List Dir
  | [] => [Dir.start]
  | [_] => [Dir.start]
  | p0 :: p1 :: rest => Dir.start :: Dir.straight :: classifySteps p0.2 p1.2 rest

/-! ### Contact Analyzer (`find_H_pairs_grid`, `find_H_pairs_order`,
`find_H_bonds`) -/

/-- A Python `frozenset` of two positions, as the pair sorted by the
lexicographic order: two frozensets are equal iff the canonical pairs are. -/
def canonPair (p q : Pos) : Pos × Pos :=
  if p.1 < q.1 ∨ (p.1 = q.1 ∧ p.2 ≤ q.2) then (p, q) else (q, p)

/-- `set.add`: insert a pair unless already present. -/
def insertPair (s : List (Pos × Pos)) (x : Pos × Pos) : List (Pos × Pos) :=
  if x ∈ s then s else s ++ [x]

/-- All cells of a `gs × gs` grid in the row-major order of the source's
nested `for row / for col` loops. -/
def cellsOf (gs : Nat) : List Pos :=
  (List.range gs).flatMap
    (fun r => (List.range gs).map (fun c => (Int.ofNat r, Int.ofNat c)))

/-- `find_H_pairs_grid`: the set of unordered position pairs of lattice-adjacent
cells that both hold 'H'. -/
def find_H_pairs_grid (gs : Nat) (g : Grid) : List (Pos × Pos) :=
  (cellsOf gs).foldl (fun s p =>
    if cellAt g p = some (GridVal.acid Acid.H) then
      (neighbors p).foldl (fun s2 q =>
        if inBoundsB gs q = true ∧ cellAt g q = some (GridVal.acid Acid.H) then
          insertPair s2 (canonPair p q)
        else s2) s
    else s) []

/-- `find_H_pairs_order`: the set of unordered position pairs of placements
consecutive in the order that both hold 'H' (covalent backbone pairs). -/
def find_H_pairs_order (ord : PlacementOrder) : List (Pos × Pos) :=
  (ord.zip ord.tail).foldl (fun s xy =>
    if xy.1.1 = Acid.H ∧ xy.2.1 = Acid.H then
      insertPair s (canonPair xy.1.2 xy.2.2)
    else s) []

/-- `find_H_bonds`: grid H-pairs minus sequence H-pairs (set difference). -/
def find_H_bonds (gs : Nat) (g : Grid) (ord : PlacementOrder) : List (Pos × Pos) :=
  (find_H_pairs_grid gs g).filter (fun x => decide (x ∉ find_H_pairs_order ord))

/-- `np.count_nonzero(initial_grid != '')` of `generate_random_samples`:
the number of non-empty cells of the lattice. -/
def aminoAcidsOnGrid (gs : Nat) (g : Grid) : Nat :=
  (cellsOf gs).countP (fun p => !(cellAt g p).isNone)

/-! ### Experiment 4 — Backtracking Placement Engine (`place_amino_acid`) -/

/-- The fence-clearing scan (`if grid[i, j] == 'F': grid[i, j] = ''`). -/
def clearFences (g : Grid) : Grid :=
  g.filter (fun e => decide (e.2 ≠ GridVal.fence))

/-- `place_amino_acid` of the heuristic-recursive notebook, with explicit
fuel for the non-structural recursion (`none` = fuel exhausted) and the draw
stream `ρ` indexed by `k` in place of `np.random.shuffle`.  The result is
`(is_placed, backtrack_count, grid, order)` with the order most-recent-first.
The always-`None` unused `fenced` argument of the source is omitted.
Mirrored exactly from the source, including the backtracking branch: the
residue popped in the failing call is re-queued, the cell of the previous
residue is cleared and its entry popped from the order, fences are cleared
when `acids_placed_since_backtrack > fences`, and the counter resets. -/
def place_amino_acid (gs : Nat) (ρ : Nat → Nat) :
    Nat → Nat → Grid → List Acid → PlacementOrder → Nat → Option Pos →
      Nat → Nat → Nat → Nat → Option (Bool × Nat × Grid × PlacementOrder)
  | 0, _, _, _, _, _, _, _, _, _, _ => none
  | _ + 1, _, g, [], ord, btCount, _, _, _, _, _ =>
    some (true, btCount, g, ord)
  | fuel + 1, k, g, a :: rest, ord, btCount, none, weJust, fenceLimit, fences,
      placedSince =>
    let center : Pos := (((gs / 2 : Nat) : Int), ((gs / 2 : Nat) : Int))
    place_amino_acid gs ρ fuel k ((center, GridVal.acid a) :: g) rest
      ((a, center) :: ord) btCount (some center) weJust fenceLimit fences
      placedSince
  | fuel + 1, k, g, a :: rest, ord, btCount, some lp, _, fenceLimit, fences,
      placedSince =>
    if h : validNeighbors gs g lp = [] then
      let g1 := clearCell g lp
      let g2 := if placedSince > fences then clearFences g1 else g1
      let fences1 := if placedSince > fences then 0 else fences
      match ord.tail with
      | [] => some (false, btCount + 1, g2, [])
      | (b, pp) :: ot =>
        place_amino_acid gs ρ fuel (k + 1) g2 (a :: rest) ((b, pp) :: ot)
          (btCount + 1) (some pp) 1 (fenceLimit + 1) fences1 0
    else
      let chosen := chooseIdx ρ k (validNeighbors gs g lp) h
      place_amino_acid gs ρ fuel (k + 1) ((chosen, GridVal.acid a) :: g) rest
        ((a, chosen) :: ord) btCount (some chosen) 0 fenceLimit fences
        (placedSince + 1)

/-- The heuristic-recursive notebook's `initialize_grid` wrapper: fresh
`2 * len` grid, one `place_amino_acid` run, returning grid, order (oldest
first) and backtrack count; `none` when the fuel runs out. -/
def initialize_grid_bt (acids : List Acid) (ρ : Nat → Nat) (fuel : Nat) :
    Option (Grid × PlacementOrder × Nat) :=
  let gs := 2 * acids.length
  (place_amino_acid gs ρ fuel 0 [] acids [] 0 none 0 0 0 0).map
    (fun r => (r.2.2.1, r.2.2.2.reverse, r.2.1))

/-! ### Invariants of in-progress placement states

`Inv c0 g ord` bundles the run invariants of a placement engine whose
accumulated order `ord` is most-recent-first: the grid records exactly the
placements of `ord`, the positions are pairwise distinct, consecutive
placements are lattice-adjacent, and every placement is within Manhattan
distance `ord.length - 1` of the start `c0`. -/

structure Inv (c0 : Pos) (g : Grid) (ord : PlacementOrder) : Prop where
  nonempty : ord ≠ []
  hcell : ∀ a p, (a, p) ∈ ord → cellAt g p = some (GridVal.acid a)
  hocc : ∀ p, p ∉ ord.map Prod.snd → cellAt g p = none
  nodup : (ord.map Prod.snd).Nodup
  chain : List.Chain' (fun x y => adjacent x.2 y.2) ord
  hdist : ∀ p ∈ ord.map Prod.snd, mdist p c0 ≤ ord.length - 1

theorem mdist_triangle (p q r : Pos) : mdist p r ≤ mdist p q + mdist q r := by
  unfold mdist
  have h1 : p.1 - r.1 = (p.1 - q.1) + (q.1 - r.1) := by ring
  have h2 : p.2 - r.2 = (p.2 - q.2) + (q.2 - r.2) := by ring
  rw [h1, h2]
  have := Int.natAbs_add_le (p.1 - q.1) (q.1 - r.1)
  have := Int.natAbs_add_le (p.2 - q.2) (q.2 - r.2)
  omega

theorem adjacent_of_mem_neighbors {q p : Pos} (hq : q ∈ neighbors p) :
    adjacent q p := by
  simp only [neighbors, List.mem_cons, List.not_mem_nil, or_false] at hq
  rcases hq with rfl | rfl | rfl | rfl <;> simp only [adjacent, mdist] <;> omega

theorem chooseIdx_mem (ρ : Nat → Nat) (k : Nat) (l : List Pos) (h : l ≠ []) :
    chooseIdx ρ k l h ∈ l :=
  List.get_mem l _ _

theorem mem_validNeighbors {gs : Nat} {g : Grid} {lp q : Pos}
    (hq : q ∈ validNeighbors gs g lp) :
    q ∈ neighbors lp ∧ inBoundsB gs q = true ∧ cellAt g q = none := by
  rw [validNeighbors, List.mem_filter] at hq
  obtain ⟨h1, h2⟩ := hq
  rw [Bool.and_eq_true] at h2
  exact ⟨h1, h2.1, Option.isNone_iff_eq_none.mp h2.2⟩

theorem Inv.not_mem_of_empty {c0 : Pos} {g : Grid} {ord : PlacementOrder}
    (hinv : Inv c0 g ord) {p : Pos} (hp : cellAt g p = none) :
    p ∉ ord.map Prod.snd := by
  intro hmem
  obtain ⟨x, hx, hxe⟩ := List.mem_map.mp hmem
  have := hinv.hcell x.1 x.2 (by rwa [Prod.mk.eta])
  rw [hxe] at this
  rw [this] at hp
  exact Option.noConfusion hp

theorem Inv.step {c0 : Pos} {g : Grid} {b : Acid} {lp : Pos}
    {ot : PlacementOrder} (hinv : Inv c0 g ((b, lp) :: ot)) {chosen : Pos}
    (hadj : adjacent chosen lp) (hempty : cellAt g chosen = none) (a : Acid) :
    Inv c0 ((chosen, GridVal.acid a) :: g) ((a, chosen) :: (b, lp) :: ot) := by
  have hnotmem : chosen ∉ ((b, lp) :: ot).map Prod.snd :=
    hinv.not_mem_of_empty hempty
  refine ⟨List.cons_ne_nil _ _, ?_, ?_, ?_, ?_, ?_⟩
  · intro a' p' h'
    rcases List.mem_cons.mp h' with h1 | h2
    · obtain ⟨rfl, rfl⟩ := Prod.mk.injEq .. ▸ h1
      simp [cellAt]
    · have hne : p' ≠ chosen := by
        intro he
        exact hnotmem (he ▸ List.mem_map_of_mem Prod.snd h2)
      simp only [cellAt]
      rw [if_neg (by simpa using Ne.symm hne)]
      exact hinv.hcell a' p' h2
  · intro p hp
    simp only [List.map_cons, List.mem_cons, not_or] at hp
    simp only [cellAt]
    rw [if_neg (by simpa using Ne.symm hp.1)]
    exact hinv.hocc p (by simpa using hp.2)
  · simp only [List.map_cons, List.nodup_cons]
    exact ⟨by simpa using hnotmem, by simpa using hinv.nodup⟩
  · rw [List.chain'_cons]
    exact ⟨hadj, hinv.chain⟩
  · intro p hp
    have hlp : mdist lp c0 ≤ ((b, lp) :: ot).length - 1 :=
      hinv.hdist lp (by simp)
    simp only [List.length_cons] at hlp ⊢
    rcases List.mem_cons.mp hp with rfl | hp2
    · have ht := mdist_triangle p lp c0
      have : mdist p lp = 1 := hadj
      omega
    · have := hinv.hdist p hp2
      simp only [List.length_cons] at this
      omega

/-- Master induction for the stochastic loop: the invariants are preserved,
and the final order extends the initial one by placements whose residues are
the next `n ≤ acids.length` residues of the chain, in order. -/
theorem placeChain_inv (gs : Nat) (ρ : Nat → Nat) (c0 : Pos) :
    ∀ (acids : List Acid) (k : Nat) (g : Grid) (ord : PlacementOrder),
      Inv c0 g ord →
      Inv c0 (placeChain gs ρ acids k g ord).1 (placeChain gs ρ acids k g ord).2 ∧
      ∃ n ≤ acids.length,
        (placeChain gs ρ acids k g ord).2.length = n + ord.length ∧
        (placeChain gs ρ acids k g ord).2.reverse.map Prod.fst =
          ord.reverse.map Prod.fst ++ acids.take n ∧
        ∃ pre, (placeChain gs ρ acids k g ord).2 = pre ++ ord := by
  intro acids
  induction acids with
  | nil =>
    intro k g ord hinv
    refine ⟨by simpa [placeChain] using hinv, 0, le_refl 0, by simp [placeChain],
      by simp [placeChain], [], by simp [placeChain]⟩
  | cons a rest ih =>
    intro k g ord hinv
    rcases ord with _ | ⟨⟨b, lp⟩, ot⟩
    · exact absurd rfl hinv.nonempty
    simp only [placeChain]
    split
    · exact ⟨hinv, 0, Nat.zero_le _, by simp, by simp, [], by simp⟩
    · rename_i hv
      set valid := validNeighbors gs g lp with hvalid
      set chosen := chooseIdx ρ k valid hv with hchosen
      have hmemv : chosen ∈ valid := chooseIdx_mem ρ k valid hv
      obtain ⟨hmemN, _, hempty⟩ := mem_validNeighbors (hvalid ▸ hmemv)
      have hadj : adjacent chosen lp := adjacent_of_mem_neighbors hmemN
      have hinv' := hinv.step hadj hempty a
      obtain ⟨hI, n', hn', hlen, hmap, pre', hpre⟩ :=
        ih (k + 1) ((chosen, GridVal.acid a) :: g)
          ((a, chosen) :: (b, lp) :: ot) hinv'
      refine ⟨hI, n' + 1, by simp only [List.length_cons]; omega, ?_, ?_,
        pre' ++ [(a, chosen)], ?_⟩
      · rw [hlen]; simp only [List.length_cons]; omega
      · rw [hmap, List.reverse_cons, List.map_append]
        simp [List.take_succ_cons]
      · rw [hpre, List.append_assoc]
        simp

theorem adjacent_move (cur : Pos) (o : Orientation) :
    adjacent (cur.1 + (movement_vectors o).1, cur.2 + (movement_vectors o).2)
      cur := by
  cases o <;> simp only [adjacent, mdist, movement_vectors] <;> omega

/-- Master induction for the directional loop, for direction lists without a
(duplicate) 'Start': invariants are preserved and the placed residues extend
the order by the next `n ≤ acids.length` residues of the chain, in order. -/
theorem dirWalk_inv (gs : Nat) (c0 : Pos) :
    ∀ (ds : List Dir), (∀ d ∈ ds, d ≠ Dir.start) →
    ∀ (acids : List Acid) (b : Acid) (cur : Pos) (o : Orientation) (g : Grid)
      (ot : PlacementOrder),
      Inv c0 g ((b, cur) :: ot) →
      Inv c0 (dirWalk gs ds acids cur o g ((b, cur) :: ot)).1
        (dirWalk gs ds acids cur o g ((b, cur) :: ot)).2 ∧
      ∃ n ≤ acids.length,
        (dirWalk gs ds acids cur o g ((b, cur) :: ot)).2.length =
          n + ((b, cur) :: ot).length ∧
        (dirWalk gs ds acids cur o g ((b, cur) :: ot)).2.reverse.map Prod.fst =
          ((b, cur) :: ot).reverse.map Prod.fst ++ acids.take n ∧
        ∃ pre, (dirWalk gs ds acids cur o g ((b, cur) :: ot)).2 =
          pre ++ ((b, cur) :: ot) := by
  intro ds
  induction ds with
  | nil =>
    intro _ acids b cur o g ot hinv
    exact ⟨by simpa [dirWalk] using hinv, 0, Nat.zero_le _, by simp [dirWalk],
      by simp [dirWalk], [], by simp [dirWalk]⟩
  | cons d ds ih =>
    intro hds acids b cur o g ot hinv
    have hd : d ≠ Dir.start := hds d (List.mem_cons_self d ds)
    rcases acids with _ | ⟨a, rest⟩
    · simp only [dirWalk, if_neg hd, ite_self]
      exact ⟨hinv, 0, Nat.zero_le _, by simp, by simp, [], by simp⟩
    · simp only [dirWalk, if_neg hd]
      set o1 := if d = Dir.straight then o else get_new_orientation o d
        with ho1
      set nxt : Pos :=
        (cur.1 + (movement_vectors o1).1, cur.2 + (movement_vectors o1).2)
        with hnxt
      split
      · rename_i hcond
        rw [Bool.and_eq_true] at hcond
        have hempty := Option.isNone_iff_eq_none.mp hcond.2
        have hadj : adjacent nxt cur := adjacent_move cur o1
        have hinv' := hinv.step hadj hempty a
        split
        · rename_i hr
          subst hr
          refine ⟨hinv', 1, by simp, by simp only [List.length_cons]; omega,
            by simp, [(a, nxt)], by simp⟩
        · obtain ⟨hI, n', hn', hlen, hmap, pre', hpre⟩ :=
            ih (fun x hx => hds x (List.mem_cons_of_mem d hx)) rest a nxt o1
              ((nxt, GridVal.acid a) :: g) ((b, cur) :: ot) hinv'
          refine ⟨hI, n' + 1, by simp only [List.length_cons]; omega, ?_, ?_,
            pre' ++ [(a, nxt)], ?_⟩
          · rw [hlen]; simp only [List.length_cons]; omega
          · rw [hmap, List.reverse_cons, List.map_append]
            simp [List.take_succ_cons]
          · rw [hpre, List.append_assoc]
            simp
      · exact ⟨hinv, 0, Nat.zero_le _, by simp, by simp, [], by simp⟩

theorem mdist_comm (p q : Pos) : mdist p q = mdist q p := by
  unfold mdist
  have h1 : p.1 - q.1 = -(q.1 - p.1) := by ring
  have h2 : p.2 - q.2 = -(q.2 - p.2) := by ring
  rw [h1, h2, Int.natAbs_neg, Int.natAbs_neg]

theorem adjacent_symm {p q : Pos} (h : adjacent p q) : adjacent q p := by
  unfold adjacent at h ⊢
  rwa [mdist_comm]

/-- The state after placing the first residue at the start cell satisfies the
run invariants. -/
theorem inv_init (c0 : Pos) (a : Acid) :
    Inv c0 [(c0, GridVal.acid a)] [(a, c0)] := by
  refine ⟨List.cons_ne_nil _ _, ?_, ?_, by simp, List.chain'_singleton _, ?_⟩
  · intro a' p' h'
    simp only [List.mem_singleton, Prod.mk.injEq] at h'
    obtain ⟨rfl, rfl⟩ := h'
    simp [cellAt]
  · intro p hp
    simp only [List.map_cons, List.map_nil, List.mem_singleton] at hp
    simp only [cellAt]
    rw [if_neg (fun h => hp ((show c0 = p from h).symm))]
  · intro p hp
    simp only [List.map_cons, List.map_nil, List.mem_singleton] at hp
    subst hp
    simp [mdist]

/-- Transfer of the run invariants from the most-recent-first accumulator to
the returned (reversed) Placement Order. -/
theorem final_of_inv {c0 : Pos} {a : Acid} {st : Grid × PlacementOrder}
    {n : Nat} {rest : List Acid} (hI : Inv c0 st.1 st.2)
    (hlen : st.2.length = n + 1)
    (hmap : st.2.reverse.map Prod.fst = [a] ++ rest.take n)
    (hpre : ∃ pre, st.2 = pre ++ [(a, c0)]) (hn : n ≤ rest.length) :
    1 ≤ st.2.reverse.length ∧ st.2.reverse.length ≤ rest.length + 1 ∧
    (st.2.reverse.map Prod.snd).Nodup ∧
    List.Chain' (fun x y => adjacent x.2 y.2) st.2.reverse ∧
    st.2.reverse.map Prod.fst = (a :: rest).take st.2.reverse.length ∧
    (∀ a' p, (a', p) ∈ st.2.reverse →
      cellAt st.1 p = some (GridVal.acid a')) ∧
    st.2.reverse.head? = some (a, c0) ∧
    (∀ p ∈ st.2.reverse.map Prod.snd, mdist p c0 ≤ rest.length) := by
  obtain ⟨pre, hpre⟩ := hpre
  refine ⟨?_, ?_, ?_, ?_, ?_, ?_, ?_, ?_⟩
  · rw [List.length_reverse, hlen]; omega
  · rw [List.length_reverse, hlen]; omega
  · rw [List.map_reverse]
    exact List.nodup_reverse.mpr hI.nodup
  · rw [List.chain'_reverse]
    exact List.Chain'.imp (fun x y h => adjacent_symm h) hI.chain
  · rw [hmap, List.length_reverse, hlen, List.take_succ_cons]
    rfl
  · intro a' p h'
    exact hI.hcell a' p (List.mem_reverse.mp h')
  · rw [List.head?_reverse, hpre, List.getLast?_concat]
  · intro p hp
    rw [List.map_reverse, List.mem_reverse] at hp
    have := hI.hdist p hp
    rw [hlen] at this
    omega

/-- Master theorem for the Stochastic Placement Engine: its returned
conformation has between 1 and `len` placements whose residues are the
leading residues of the chain in order, pairwise-distinct lattice-adjacent
consecutive positions all recorded on the grid, first placement at the
center `(len, len)`, and every placement within Manhattan distance
`len - 1` of the center. -/
theorem initialize_grid_master (acids : List Acid) (ρ : Nat → Nat)
    (ha : acids ≠ []) :
    1 ≤ (initialize_grid acids ρ).2.length ∧
    (initialize_grid acids ρ).2.length ≤ acids.length ∧
    ((initialize_grid acids ρ).2.map Prod.snd).Nodup ∧
    List.Chain' (fun x y => adjacent x.2 y.2) (initialize_grid acids ρ).2 ∧
    (initialize_grid acids ρ).2.map Prod.fst =
      acids.take (initialize_grid acids ρ).2.length ∧
    (∀ a' p, (a', p) ∈ (initialize_grid acids ρ).2 →
      cellAt (initialize_grid acids ρ).1 p = some (GridVal.acid a')) ∧
    ((initialize_grid acids ρ).2.head?).map Prod.snd =
      some (((acids.length : Int)), ((acids.length : Int))) ∧
    (∀ p ∈ (initialize_grid acids ρ).2.map Prod.snd,
      mdist p (((acids.length : Int)), ((acids.length : Int))) ≤
        acids.length - 1) := by
  rcases acids with _ | ⟨a, rest⟩
  · exact absurd rfl ha
  have hc : (2 * (rest.length + 1)) / 2 = rest.length + 1 := by omega
  simp only [initialize_grid, hc]
  set c0 : Pos := (((rest.length + 1 : Nat) : Int), ((rest.length + 1 : Nat) : Int))
    with hc0
  obtain ⟨hI, n, hn, hlen, hmap, hpre⟩ :=
    placeChain_inv (2 * (rest.length + 1)) ρ c0 rest 0
      [(c0, GridVal.acid a)] [(a, c0)] (inv_init c0 a)
  obtain ⟨f1, f2, f3, f4, f5, f6, f7, f8⟩ :=
    final_of_inv hI hlen (by simpa using hmap) hpre hn
  refine ⟨f1, by simpa using f2, f3, f4, by simpa using f5, f6, ?_, ?_⟩
  · rw [f7]
    simp [hc0, List.length_cons]
  · intro p hp
    have h8 := f8 p hp
    rw [hc0] at h8
    simp only [List.length_cons]
    omega

/-- Master theorem for the Deterministic-Directional Placement Engine, for a
well-formed turn sequence ('Start' first, never again): same guarantees as
the stochastic engine. -/
theorem initialize_grid_directional_master (acids : List Acid) (ds : List Dir)
    (ha : acids ≠ []) (hds : ∀ d ∈ ds, d ≠ Dir.start) :
    1 ≤ (initialize_grid_directional acids (Dir.start :: ds)).2.length ∧
    (initialize_grid_directional acids (Dir.start :: ds)).2.length ≤
      acids.length ∧
    ((initialize_grid_directional acids (Dir.start :: ds)).2.map
      Prod.snd).Nodup ∧
    List.Chain' (fun x y => adjacent x.2 y.2)
      (initialize_grid_directional acids (Dir.start :: ds)).2 ∧
    (initialize_grid_directional acids (Dir.start :: ds)).2.map Prod.fst =
      acids.take
        (initialize_grid_directional acids (Dir.start :: ds)).2.length ∧
    (∀ a' p, (a', p) ∈ (initialize_grid_directional acids (Dir.start :: ds)).2 →
      cellAt (initialize_grid_directional acids (Dir.start :: ds)).1 p =
        some (GridVal.acid a')) ∧
    ((initialize_grid_directional acids (Dir.start :: ds)).2.head?).map
        Prod.snd = some (((acids.length : Int)), ((acids.length : Int))) ∧
    (∀ p ∈ (initialize_grid_directional acids (Dir.start :: ds)).2.map
        Prod.snd,
      mdist p (((acids.length : Int)), ((acids.length : Int))) ≤
        acids.length - 1) := by
  rcases acids with _ | ⟨a, rest⟩
  · exact absurd rfl ha
  have hc : (2 * (a :: rest).length) / 2 = rest.length + 1 := by
    simp only [List.length_cons]; omega
  simp only [initialize_grid_directional, hc]
  set c0 : Pos := (((rest.length + 1 : Nat) : Int), ((rest.length + 1 : Nat) : Int))
    with hc0
  have hstep : dirWalk (2 * (a :: rest).length) (Dir.start :: ds) (a :: rest)
      c0 Orientation.right [] [] =
      if rest = [] then ([(c0, GridVal.acid a)], [(a, c0)])
      else dirWalk (2 * (a :: rest).length) ds rest c0 Orientation.right
        [(c0, GridVal.acid a)] [(a, c0)] := by
    rfl
  rw [hstep]
  by_cases hr : rest = []
  · subst hr
    rw [if_pos rfl]
    obtain ⟨f1, f2, f3, f4, f5, f6, f7, f8⟩ :=
      @final_of_inv c0 a ([(c0, GridVal.acid a)], [(a, c0)]) 0 []
        (inv_init c0 a) rfl (by simp) ⟨[], rfl⟩ (Nat.le_refl 0)
    refine ⟨f1, by simp, f3, f4, by simp, f6, ?_, ?_⟩
    · rw [f7]; simp [hc0]
    · intro p hp
      have h8 := f8 p hp
      rw [hc0] at h8
      simp only [List.length_cons]
      omega
  · rw [if_neg hr]
    obtain ⟨hI, n, hn, hlen, hmap, hpre⟩ :=
      dirWalk_inv (2 * (a :: rest).length) c0 ds hds rest a c0
        Orientation.right [(c0, GridVal.acid a)] [] (inv_init c0 a)
    obtain ⟨f1, f2, f3, f4, f5, f6, f7, f8⟩ :=
      final_of_inv hI (by simpa using hlen) (by simpa using hmap)
        (by simpa using hpre) hn
    refine ⟨f1, by simpa using f2, f3, f4, by simpa using f5, f6, ?_, ?_⟩
    · rw [f7]; simp [hc0, List.length_cons]
    · intro p hp
      have h8 := f8 p hp
      rw [hc0] at h8
      simp only [List.length_cons]
      omega

/-! ### Claim theorems -/

/-- **C1** For every chain and every conformation returned by a placement
engine (stochastic `initialize_grid` or deterministic
`initialize_grid_directional`), no two entries of the returned Placement
Order have the same Position: the walk is self-avoiding. -/
theorem C1_placement_self_avoiding :
    (∀ (acids : List Acid) (ρ : Nat → Nat), acids ≠ [] →
      ((initialize_grid acids ρ).2.map Prod.snd).Nodup) ∧
    (∀ (acids : List Acid) (ds : List Dir), acids ≠ [] →
      (∀ d ∈ ds, d ≠ Dir.start) →
      ((initialize_grid_directional acids (Dir.start :: ds)).2.map
        Prod.snd).Nodup) :=
  ⟨fun acids ρ ha => (initialize_grid_master acids ρ ha).2.2.1,
    fun acids ds ha hds =>
      (initialize_grid_directional_master acids ds ha hds).2.2.1⟩

theorem C1_placement_self_avoiding_witness :
    ((initialize_grid [Acid.H, Acid.P, Acid.H] (fun _ => 0)).2.map
      Prod.snd).Nodup ∧
    ((initialize_grid_directional [Acid.H, Acid.P, Acid.H]
      (Dir.start :: [Dir.straight, Dir.left])).2.map Prod.snd).Nodup :=
  ⟨C1_placement_self_avoiding.1 [Acid.H, Acid.P, Acid.H] (fun _ => 0)
      (by decide),
    C1_placement_self_avoiding.2 [Acid.H, Acid.P, Acid.H]
      [Dir.straight, Dir.left] (by decide) (by decide)⟩

/-- **C2** For every chain and every conformation returned by a placement
engine, every entry `i > 0` of the returned Placement Order is
lattice-adjacent (Manhattan distance 1, 4-connectivity) to entry `i - 1`. -/
theorem C2_placement_chain_connected :
    (∀ (acids : List Acid) (ρ : Nat → Nat), acids ≠ [] →
      ∀ (i : Nat) (hi : i + 1 < (initialize_grid acids ρ).2.length),
        adjacent ((initialize_grid acids ρ).2.get ⟨i + 1, hi⟩).2
          ((initialize_grid acids ρ).2.get ⟨i, by omega⟩).2) ∧
    (∀ (acids : List Acid) (ds : List Dir), acids ≠ [] →
      (∀ d ∈ ds, d ≠ Dir.start) →
      ∀ (i : Nat)
        (hi : i + 1 <
          (initialize_grid_directional acids (Dir.start :: ds)).2.length),
        adjacent
          ((initialize_grid_directional acids
            (Dir.start :: ds)).2.get ⟨i + 1, hi⟩).2
          ((initialize_grid_directional acids
            (Dir.start :: ds)).2.get ⟨i, by omega⟩).2) := by
  constructor
  · intro acids ρ ha i hi
    have hch := (initialize_grid_master acids ρ ha).2.2.2.1
    rw [List.chain'_iff_get] at hch
    exact adjacent_symm (hch i (by omega))
  · intro acids ds ha hds i hi
    have hch := (initialize_grid_directional_master acids ds ha hds).2.2.2.1
    rw [List.chain'_iff_get] at hch
    exact adjacent_symm (hch i (by omega))

theorem C2_placement_chain_connected_witness :
    adjacent
      ((initialize_grid [Acid.H, Acid.P, Acid.H]
        (fun _ => 0)).2.get ⟨1, by decide⟩).2
      ((initialize_grid [Acid.H, Acid.P, Acid.H]
        (fun _ => 0)).2.get ⟨0, by decide⟩).2 ∧
    adjacent
      ((initialize_grid_directional [Acid.H, Acid.P, Acid.H]
        (Dir.start :: [Dir.straight, Dir.left])).2.get ⟨1, by decide⟩).2
      ((initialize_grid_directional [Acid.H, Acid.P, Acid.H]
        (Dir.start :: [Dir.straight, Dir.left])).2.get ⟨0, by decide⟩).2 :=
  ⟨C2_placement_chain_connected.1 [Acid.H, Acid.P, Acid.H] (fun _ => 0)
      (by decide) 0 (by decide),
    C2_placement_chain_connected.2 [Acid.H, Acid.P, Acid.H]
      [Dir.straight, Dir.left] (by decide) (by decide) 0 (by decide)⟩

/-- **C5** For every nonempty chain, the Stochastic Placement Engine
`initialize_grid` returns a Placement Order of length between 1 and the
chain length, whose first entry is placed at the lattice center
`(grid_size // 2, grid_size // 2) = (len, len)`. -/
theorem C5_stochastic_length_center :
    ∀ (acids : List Acid) (ρ : Nat → Nat), acids ≠ [] →
      1 ≤ (initialize_grid acids ρ).2.length ∧
      (initialize_grid acids ρ).2.length ≤ acids.length ∧
      ((initialize_grid acids ρ).2.head?).map Prod.snd =
        some (((acids.length : Int)), ((acids.length : Int))) := by
  intro acids ρ ha
  obtain ⟨f1, f2, _, _, _, _, f7, _⟩ := initialize_grid_master acids ρ ha
  exact ⟨f1, f2, f7⟩

theorem C5_stochastic_length_center_witness :
    1 ≤ (initialize_grid [Acid.H, Acid.H, Acid.P, Acid.P, Acid.H]
      (fun _ => 0)).2.length ∧
    (initialize_grid [Acid.H, Acid.H, Acid.P, Acid.P, Acid.H]
      (fun _ => 0)).2.length ≤
      [Acid.H, Acid.H, Acid.P, Acid.P, Acid.H].length ∧
    ((initialize_grid [Acid.H, Acid.H, Acid.P, Acid.P, Acid.H]
      (fun _ => 0)).2.head?).map Prod.snd =
      some ((([Acid.H, Acid.H, Acid.P, Acid.P, Acid.H].length : Int)),
        (([Acid.H, Acid.H, Acid.P, Acid.P, Acid.H].length : Int))) :=
  C5_stochastic_length_center [Acid.H, Acid.H, Acid.P, Acid.P, Acid.H]
    (fun _ => 0) (by decide)

/-- **C6** Early termination is a normal return: both engines return a
(possibly partial) Placement Order whose residues are exactly the leading
residues of the chain in order, with every already-placed residue still on
the grid at its recorded position. -/
theorem C6_early_termination_normal_return :
    (∀ (acids : List Acid) (ρ : Nat → Nat), acids ≠ [] →
      (initialize_grid acids ρ).2.map Prod.fst =
        acids.take (initialize_grid acids ρ).2.length ∧
      ∀ a p, (a, p) ∈ (initialize_grid acids ρ).2 →
        cellAt (initialize_grid acids ρ).1 p = some (GridVal.acid a)) ∧
    (∀ (acids : List Acid) (ds : List Dir), acids ≠ [] →
      (∀ d ∈ ds, d ≠ Dir.start) →
      (initialize_grid_directional acids (Dir.start :: ds)).2.map Prod.fst =
        acids.take
          (initialize_grid_directional acids (Dir.start :: ds)).2.length ∧
      ∀ a p, (a, p) ∈ (initialize_grid_directional acids
          (Dir.start :: ds)).2 →
        cellAt (initialize_grid_directional acids (Dir.start :: ds)).1 p =
          some (GridVal.acid a)) := by
  constructor
  · intro acids ρ ha
    obtain ⟨_, _, _, _, f5, f6, _, _⟩ := initialize_grid_master acids ρ ha
    exact ⟨f5, f6⟩
  · intro acids ds ha hds
    obtain ⟨_, _, _, _, f5, f6, _, _⟩ :=
      initialize_grid_directional_master acids ds ha hds
    exact ⟨f5, f6⟩

theorem C6_early_termination_normal_return_witness :
    ((initialize_grid [Acid.P, Acid.H] (fun _ => 0)).2.map Prod.fst =
      [Acid.P, Acid.H].take
        (initialize_grid [Acid.P, Acid.H] (fun _ => 0)).2.length ∧
    ∀ a p, (a, p) ∈ (initialize_grid [Acid.P, Acid.H] (fun _ => 0)).2 →
      cellAt (initialize_grid [Acid.P, Acid.H] (fun _ => 0)).1 p =
        some (GridVal.acid a)) ∧
    ((initialize_grid_directional [Acid.P, Acid.H]
        (Dir.start :: [Dir.straight])).2.map Prod.fst =
      [Acid.P, Acid.H].take
        (initialize_grid_directional [Acid.P, Acid.H]
          (Dir.start :: [Dir.straight])).2.length ∧
    ∀ a p, (a, p) ∈ (initialize_grid_directional [Acid.P, Acid.H]
        (Dir.start :: [Dir.straight])).2 →
      cellAt (initialize_grid_directional [Acid.P, Acid.H]
          (Dir.start :: [Dir.straight])).1 p = some (GridVal.acid a)) :=
  ⟨C6_early_termination_normal_return.1 [Acid.P, Acid.H] (fun _ => 0) (by decide),
    C6_early_termination_normal_return.2 [Acid.P, Acid.H] [Dir.straight]
      (by decide) (by decide)⟩

/-- **C9 (counterexample)** The claim "no placement of the run ever occupies
a border row or column of the lattice (index 0 or `2*len - 1`)" fails: the
straight run of the length-5 chain places its last residue at `(5, 9)`, and
column 9 is the border column `2*5 - 1` of the 10×10 lattice. -/
theorem C9_border_counterexample :
    ((5 : Int), (9 : Int)) ∈
      (initialize_grid_directional [Acid.H, Acid.H, Acid.P, Acid.P, Acid.H]
        [Dir.start, Dir.straight, Dir.straight, Dir.straight,
          Dir.straight]).2.map Prod.snd ∧
    (9 : Int) =
      2 * (([Acid.H, Acid.H, Acid.P, Acid.P, Acid.H].length : Int)) - 1 := by
  constructor
  · decide
  · decide

/-- **C9 (amended)** Both engines run on a `2*len × 2*len` lattice starting
at its center `(len, len)`, and no placement ever occupies the low border
row or column (index 0); every coordinate stays within `[1, 2*len - 1]`
(the high border `2*len - 1` can be reached). -/
theorem C9_no_low_border :
    (∀ (acids : List Acid) (ρ : Nat → Nat), acids ≠ [] →
      ∀ p ∈ (initialize_grid acids ρ).2.map Prod.snd,
        1 ≤ p.1 ∧ p.1 ≤ 2 * (acids.length : Int) - 1 ∧
        1 ≤ p.2 ∧ p.2 ≤ 2 * (acids.length : Int) - 1) ∧
    (∀ (acids : List Acid) (ds : List Dir), acids ≠ [] →
      (∀ d ∈ ds, d ≠ Dir.start) →
      ∀ p ∈ (initialize_grid_directional acids
          (Dir.start :: ds)).2.map Prod.snd,
        1 ≤ p.1 ∧ p.1 ≤ 2 * (acids.length : Int) - 1 ∧
        1 ≤ p.2 ∧ p.2 ≤ 2 * (acids.length : Int) - 1) := by
  constructor
  · intro acids ρ ha p hp
    have hL : 1 ≤ acids.length := List.length_pos.mpr ha
    have h8 := (initialize_grid_master acids ρ ha).2.2.2.2.2.2.2 p hp
    unfold mdist at h8
    omega
  · intro acids ds ha hds p hp
    have hL : 1 ≤ acids.length := List.length_pos.mpr ha
    have h8 :=
      (initialize_grid_directional_master acids ds ha hds).2.2.2.2.2.2.2 p hp
    unfold mdist at h8
    omega

theorem C9_no_low_border_witness :
    (∀ p ∈ (initialize_grid [Acid.H, Acid.P] (fun _ => 0)).2.map Prod.snd,
      1 ≤ p.1 ∧ p.1 ≤ 2 * (([Acid.H, Acid.P].length : Int)) - 1 ∧
      1 ≤ p.2 ∧ p.2 ≤ 2 * (([Acid.H, Acid.P].length : Int)) - 1) ∧
    (∀ p ∈ (initialize_grid_directional [Acid.H, Acid.P]
        (Dir.start :: [Dir.straight])).2.map Prod.snd,
      1 ≤ p.1 ∧ p.1 ≤ 2 * (([Acid.H, Acid.P].length : Int)) - 1 ∧
      1 ≤ p.2 ∧ p.2 ≤ 2 * (([Acid.H, Acid.P].length : Int)) - 1) :=
  ⟨C9_no_low_border.1 [Acid.H, Acid.P] (fun _ => 0) (by decide),
    C9_no_low_border.2 [Acid.H, Acid.P] [Dir.straight] (by decide)
      (by decide)⟩

/-- **C4** Direction Model round-trip: from any two-step prefix whose heading
is `o`, taking one step whose absolute move is obtained from
`get_new_orientation o t` (orientation unchanged when `t` is 'straight')
and classifying that step with `determine_directions` recovers `t`. -/
theorem C4_direction_roundtrip :
    ∀ (r c : Int) (o : Orientation) (t : Dir), t ≠ Dir.start →
      determine_directions
        [(Acid.H, (r, c)),
          (Acid.H, (r + (movement_vectors o).1, c + (movement_vectors o).2)),
          (Acid.H, (r + (movement_vectors o).1 +
              (movement_vectors (if t = Dir.straight then o
                else get_new_orientation o t)).1,
            c + (movement_vectors o).2 +
              (movement_vectors (if t = Dir.straight then o
                else get_new_orientation o t)).2))] =
        [Dir.start, Dir.straight, t] := by
  intro r c o t ht
  rcases t with _ | _ | _ | _
  · exact absurd rfl ht
  all_goals cases o <;>
    simp [determine_directions, classifySteps, classifyMove, psub,
      movement_vectors, get_new_orientation]

theorem C4_direction_roundtrip_witness :
    determine_directions
      [(Acid.H, ((5 : Int), (5 : Int))),
        (Acid.H, ((5 : Int) + (movement_vectors Orientation.up).1,
          (5 : Int) + (movement_vectors Orientation.up).2)),
        (Acid.H, ((5 : Int) + (movement_vectors Orientation.up).1 +
            (movement_vectors (if Dir.left = Dir.straight then Orientation.up
              else get_new_orientation Orientation.up Dir.left)).1,
          (5 : Int) + (movement_vectors Orientation.up).2 +
            (movement_vectors (if Dir.left = Dir.straight then Orientation.up
              else get_new_orientation Orientation.up Dir.left)).2))] =
      [Dir.start, Dir.straight, Dir.left] :=
  C4_direction_roundtrip 5 5 Orientation.up Dir.left (by decide)

/-- The orientation update as performed at the call site of
`get_new_orientation` inside `initialize_grid_directional`: a 'straight'
turn skips the update, any other turn applies `get_new_orientation`. -/
def orientationStep (o : Orientation) (t : Dir) : Orientation :=
  if t = Dir.straight then o else get_new_orientation o t

/-- Modelled from the spec: the fully case-split orientation-update table
("the four orientations form a cyclic group under {left, right}; 'straight'
leaves orientation unchanged"), with no catch-all branch: a 'start' turn has
no defined update. -/
def orientationTable (o : Orientation) (t : Dir) : Option Orientation :=
  match o, t with
  | o, .straight => some o
  | .up, .left => some .left
  | .up, .right => some .right
  | .down, .left => some .right
  | .down, .right => some .left
  | .left, .left => some .down
  | .left, .right => some .up
  | .right, .left => some .up
  | .right, .right => some .down
  | _, .start => none

/-- **C8** The orientation update (`get_new_orientation` together with its
call site) is exhaustive over the 4 orientations × 3 turns: every such pair
yields a defined new orientation equal to the fully case-split 12-entry
table, and the three turns are never conflated (pairwise distinct results
from every orientation), so no turn value is silently passed through an
undifferentiated branch. -/
theorem C8_orientation_update_exhaustive :
    ∀ (o : Orientation) (t : Dir), t ≠ Dir.start →
      some (orientationStep o t) = orientationTable o t ∧
      orientationStep o Dir.left ≠ orientationStep o Dir.straight ∧
      orientationStep o Dir.straight ≠ orientationStep o Dir.right ∧
      orientationStep o Dir.left ≠ orientationStep o Dir.right := by
  decide

theorem C8_orientation_update_exhaustive_witness :
    some (orientationStep Orientation.up Dir.left) =
      orientationTable Orientation.up Dir.left ∧
    orientationStep Orientation.up Dir.left ≠
      orientationStep Orientation.up Dir.straight ∧
    orientationStep Orientation.up Dir.straight ≠
      orientationStep Orientation.up Dir.right ∧
    orientationStep Orientation.up Dir.left ≠
      orientationStep Orientation.up Dir.right :=
  C8_orientation_update_exhaustive Orientation.up Dir.left (by decide)

/-- **C3** A straight-line conformation (Deterministic-Directional Engine on
the turn sequence `[Start, straight, straight, straight, straight]`) has
zero non-covalent H-bonds for every assignment of H and P to the five
residues. -/
theorem C3_straight_line_no_H_bonds :
    ∀ (a b c d e : Acid),
      find_H_bonds 10
        (initialize_grid_directional [a, b, c, d, e]
          [Dir.start, Dir.straight, Dir.straight, Dir.straight,
            Dir.straight]).1
        (initialize_grid_directional [a, b, c, d, e]
          [Dir.start, Dir.straight, Dir.straight, Dir.straight,
            Dir.straight]).2 = [] := by
  decide

theorem C3_straight_line_no_H_bonds_witness :
    find_H_bonds 10
      (initialize_grid_directional [Acid.H, Acid.P, Acid.H, Acid.P, Acid.H]
        [Dir.start, Dir.straight, Dir.straight, Dir.straight,
          Dir.straight]).1
      (initialize_grid_directional [Acid.H, Acid.P, Acid.H, Acid.P, Acid.H]
        [Dir.start, Dir.straight, Dir.straight, Dir.straight,
          Dir.straight]).2 = [] :=
  C3_straight_line_no_H_bonds Acid.H Acid.P Acid.H Acid.P Acid.H

theorem aminoAcidsOnGrid_pos {gs : Nat} {g : Grid} {p : Pos}
    (hp : p ∈ cellsOf gs) (hocc : cellAt g p ≠ none) :
    0 < aminoAcidsOnGrid gs g := by
  rw [aminoAcidsOnGrid, List.countP_pos_iff]
  refine ⟨p, hp, ?_⟩
  cases h : cellAt g p with
  | none => exact absurd h hocc
  | some v => simp [h]

theorem center_mem_cellsOf {L : Nat} (hL : 1 ≤ L) :
    (((L : Int)), ((L : Int))) ∈ cellsOf (2 * L) := by
  have h2 : L < 2 * L := by omega
  rw [cellsOf]
  apply List.mem_flatMap.mpr
  refine ⟨L, List.mem_range.mpr h2, ?_⟩
  apply List.mem_map.mpr
  exact ⟨L, List.mem_range.mpr h2, rfl⟩

theorem onGrid_pos_of_run {g : Grid} {ord : PlacementOrder} {L : Nat}
    (hL : 1 ≤ L)
    (f6 : ∀ a p, (a, p) ∈ ord → cellAt g p = some (GridVal.acid a))
    (f7 : ord.head?.map Prod.snd = some (((L : Int)), ((L : Int)))) :
    0 < aminoAcidsOnGrid (2 * L) g := by
  rcases hh : ord.head? with _ | x
  · rw [hh] at f7
    exact Option.noConfusion f7
  · rw [hh] at f7
    have hx : x ∈ ord := List.mem_of_mem_head? (by simp [hh])
    have hc := f6 x.1 x.2 (by rwa [Prod.mk.eta])
    have hxc : x.2 = (((L : Int)), ((L : Int))) := by
      simpa using f7
    rw [hxc] at hc
    exact aminoAcidsOnGrid_pos (center_mem_cellsOf hL)
      (by rw [hc]; exact fun h => Option.noConfusion h)

theorem ratio_aux {b n : Nat} (hn : 0 < n) :
    (b : ℚ) / (n : ℚ) = 0 ↔ b = 0 ∧ 0 < n := by
  rw [div_eq_zero_iff, Nat.cast_eq_zero, Nat.cast_eq_zero]
  constructor
  · rintro (h | h)
    · exact ⟨h, hn⟩
    · omega
  · rintro ⟨h, _⟩
    exact Or.inl h

/-- **C7** For every generated sample, the H-ratio is the bond count divided
by the number of residues on the lattice; the residues-on-grid count is
always positive (the first residue is placed unconditionally, so the
division is well defined), and the ratio is 0 exactly when the bond count
is 0 and residues-on-grid is positive. -/
theorem C7_h_ratio_zero_iff :
    (∀ (acids : List Acid) (ρ : Nat → Nat), acids ≠ [] →
      0 < aminoAcidsOnGrid (2 * acids.length) (initialize_grid acids ρ).1 ∧
      (((find_H_bonds (2 * acids.length) (initialize_grid acids ρ).1
            (initialize_grid acids ρ).2).length : ℚ) /
          ((aminoAcidsOnGrid (2 * acids.length)
            (initialize_grid acids ρ).1 : ℚ)) = 0 ↔
        (find_H_bonds (2 * acids.length) (initialize_grid acids ρ).1
          (initialize_grid acids ρ).2).length = 0 ∧
        0 < aminoAcidsOnGrid (2 * acids.length)
          (initialize_grid acids ρ).1)) ∧
    (∀ (acids : List Acid) (ds : List Dir), acids ≠ [] →
      (∀ d ∈ ds, d ≠ Dir.start) →
      0 < aminoAcidsOnGrid (2 * acids.length)
        (initialize_grid_directional acids (Dir.start :: ds)).1 ∧
      (((find_H_bonds (2 * acids.length)
            (initialize_grid_directional acids (Dir.start :: ds)).1
            (initialize_grid_directional acids
              (Dir.start :: ds)).2).length : ℚ) /
          ((aminoAcidsOnGrid (2 * acids.length)
            (initialize_grid_directional acids
              (Dir.start :: ds)).1 : ℚ)) = 0 ↔
        (find_H_bonds (2 * acids.length)
          (initialize_grid_directional acids (Dir.start :: ds)).1
          (initialize_grid_directional acids
            (Dir.start :: ds)).2).length = 0 ∧
        0 < aminoAcidsOnGrid (2 * acids.length)
          (initialize_grid_directional acids (Dir.start :: ds)).1)) := by
  constructor
  · intro acids ρ ha
    have hL : 1 ≤ acids.length := List.length_pos.mpr ha
    obtain ⟨_, _, _, _, _, f6, f7, _⟩ := initialize_grid_master acids ρ ha
    have hpos := onGrid_pos_of_run hL f6 f7
    exact ⟨hpos, ratio_aux hpos⟩
  · intro acids ds ha hds
    have hL : 1 ≤ acids.length := List.length_pos.mpr ha
    obtain ⟨_, _, _, _, _, f6, f7, _⟩ :=
      initialize_grid_directional_master acids ds ha hds
    have hpos := onGrid_pos_of_run hL f6 f7
    exact ⟨hpos, ratio_aux hpos⟩

theorem C7_h_ratio_zero_iff_witness :
    (0 < aminoAcidsOnGrid (2 * [Acid.H, Acid.P].length)
      (initialize_grid [Acid.H, Acid.P] (fun _ => 0)).1 ∧
    (((find_H_bonds (2 * [Acid.H, Acid.P].length)
          (initialize_grid [Acid.H, Acid.P] (fun _ => 0)).1
          (initialize_grid [Acid.H, Acid.P] (fun _ => 0)).2).length : ℚ) /
        ((aminoAcidsOnGrid (2 * [Acid.H, Acid.P].length)
          (initialize_grid [Acid.H, Acid.P] (fun _ => 0)).1 : ℚ)) = 0 ↔
      (find_H_bonds (2 * [Acid.H, Acid.P].length)
        (initialize_grid [Acid.H, Acid.P] (fun _ => 0)).1
        (initialize_grid [Acid.H, Acid.P] (fun _ => 0)).2).length = 0 ∧
      0 < aminoAcidsOnGrid (2 * [Acid.H, Acid.P].length)
        (initialize_grid [Acid.H, Acid.P] (fun _ => 0)).1)) ∧
    (0 < aminoAcidsOnGrid (2 * [Acid.H, Acid.P].length)
      (initialize_grid_directional [Acid.H, Acid.P]
        (Dir.start :: [Dir.straight])).1 ∧
    (((find_H_bonds (2 * [Acid.H, Acid.P].length)
          (initialize_grid_directional [Acid.H, Acid.P]
            (Dir.start :: [Dir.straight])).1
          (initialize_grid_directional [Acid.H, Acid.P]
            (Dir.start :: [Dir.straight])).2).length : ℚ) /
        ((aminoAcidsOnGrid (2 * [Acid.H, Acid.P].length)
          (initialize_grid_directional [Acid.H, Acid.P]
            (Dir.start :: [Dir.straight])).1 : ℚ)) = 0 ↔
      (find_H_bonds (2 * [Acid.H, Acid.P].length)
        (initialize_grid_directional [Acid.H, Acid.P]
          (Dir.start :: [Dir.straight])).1
        (initialize_grid_directional [Acid.H, Acid.P]
          (Dir.start :: [Dir.straight])).2).length = 0 ∧
      0 < aminoAcidsOnGrid (2 * [Acid.H, Acid.P].length)
        (initialize_grid_directional [Acid.H, Acid.P]
          (Dir.start :: [Dir.straight])).1)) :=
  ⟨C7_h_ratio_zero_iff.1 [Acid.H, Acid.P] (fun _ => 0) (by decide),
    C7_h_ratio_zero_iff.2 [Acid.H, Acid.P] [Dir.straight] (by decide)
      (by decide)⟩

/-- **C10** Evaluation of the Backtracking Placement Engine at a failing
input: a 9-residue chain steered (by admissible random draws) into the
smallest self-trapping walk.  The engine backtracks once, and because the
dead-end branch re-queues the residue popped in the failing call while the
just-unplaced residue is dropped entirely, it returns success with a
Placement Order of only 8 entries for the 9-residue chain — the returned
order does not cover every residue, contradicting the claimed (and
specified) behaviour. -/
theorem C10_backtracking_drops_residue :
    (place_amino_acid 18 (fun k => [3, 1, 0, 1, 2, 0, 2, 0, 0].getD k 0) 100
        0 [] (List.replicate 9 Acid.H) [] 0 none 0 0 0 0).map
      (fun r => (r.1, r.2.1, r.2.2.2.length)) = some (true, 1, 8) ∧
    ((initialize_grid_bt (List.replicate 9 Acid.H)
        (fun k => [3, 1, 0, 1, 2, 0, 2, 0, 0].getD k 0) 100).map
      (fun r => r.2.1.length)) = some 8 ∧
    (List.replicate 9 Acid.H).length = 9 := by
  refine ⟨by decide, by decide, by decide⟩

end HPFold
